import Mathlib

/-!
Verification of the file-processing repository's core logic.

Python strings are modelled as `List Char`, Python `None`-able values as
`Option`, and machine integers as `Nat` (the quantities involved are page
counts, row counts and HTTP status codes, all non-negative and far from any
overflow boundary).  Network I/O is modelled by passing the responses the
transport layer would deliver as explicit arguments (an oracle), so every
function here is a pure, executable translation of the corresponding Python
function.
-/

namespace FileProc

/-- PyStr models a Python `str` as its character sequence. -/
abbrev PyStr := List Char

/-- py_strip models Python `str.strip()`: remove leading and trailing
whitespace characters. -/
def py_strip (s : PyStr) : PyStr :=
  ((s.dropWhile Char.isWhitespace).reverse.dropWhile Char.isWhitespace).reverse

/-- drop_duplicates.go is the worker loop: keep an element when its key has
not been seen yet, accumulating seen keys. -/
def drop_duplicates.go {α κ : Type} [DecidableEq κ] (key : α → κ) :
    List κ → List α → List α
  | _, [] => []
  | seen, x :: xs =>
    if key x ∈ seen then drop_duplicates.go key seen xs
    else x :: drop_duplicates.go key (key x :: seen) xs

/-- drop_duplicates models keep-first deduplication by a key: this is both
pandas `DataFrame.drop_duplicates(subset=keys)` (exporter.py line 33) and the
seen-set loop of `filter_codes_for_day` (fetcher.py lines 265-270). -/
def drop_duplicates {α κ : Type} [DecidableEq κ] (key : α → κ) (l : List α) :
    List α :=
  drop_duplicates.go key [] l

-- -------------------------------------------------------------------
-- Paginated fetcher, pagination structure (fetcher.py lines 194-235)
-- -------------------------------------------------------------------

/-- ListResponse models the JSON body of a successful listing request:
the declared total and the page's rows (fields `total` / `rows`). -/
structure ListResponse (Row : Type) where
  total : Nat
  rows : List Row

/-- FetchResult carries the page numbers that were requested, in request
order, together with the accumulated rows (`all_rows`). -/
structure FetchResult (Row : Type) where
  requests : List Nat
  all_rows : List Row

/-- fetch_all_real_train_info models fetcher.py lines 194-235 on the path
where every page request succeeds: `post page` stands for the body that
`_post_with_retry` returns for the payload whose page-number field is `page`.
The first page is requested at `start_page_number`; `total` is read from the
first body, `page_size` from the payload template, and pages
`start_page_number + 1 .. start_page_number + total_pages - 1` are then
requested in order, appending each page's rows. -/
def fetch_all_real_train_info {Row : Type} (post : Nat → ListResponse Row)
    (page_size start_page_number : Nat) : FetchResult Row :=
  let first := post start_page_number
  let total := first.total
  let all_rows := first.rows
  if total ≤ all_rows.length then
    ⟨[start_page_number], all_rows⟩
  else
    let total_pages := (total + page_size - 1) / page_size
    (List.range' 1 (total_pages - 1)).foldl
      (fun acc i =>
        let page_number := start_page_number + i
        ⟨acc.requests ++ [page_number],
         acc.all_rows ++ (post page_number).rows⟩)
      ⟨[start_page_number], all_rows⟩

/-- fetch_loop_spec characterises the page loop as a map over the loop
indices. -/
theorem fetch_loop_spec {Row : Type} (post : Nat → ListResponse Row)
    (start_page_number : Nat) (idxs : List Nat) (acc : FetchResult Row) :
    idxs.foldl
      (fun acc i =>
        let page_number := start_page_number + i
        FetchResult.mk (acc.requests ++ [page_number])
          (acc.all_rows ++ (post page_number).rows))
      acc =
    ⟨acc.requests ++ idxs.map (fun i => start_page_number + i),
     acc.all_rows ++
       (idxs.map (fun i => (post (start_page_number + i)).rows)).flatten⟩ := by
  induction idxs generalizing acc with
  | nil => simp
  | cons j rest ih =>
    simp only [List.foldl_cons, List.map_cons, List.flatten]
    rw [ih]
    simp

/-- range_split peels the first index off `List.range n` for positive `n`. -/
theorem range_split (n : Nat) (h : 0 < n) :
    List.range n = 0 :: List.range' 1 (n - 1) := by
  cases n with
  | zero => omega
  | succ m =>
    rw [List.range_eq_range']
    simp [List.range'_succ]

/-- C1: over well-formed listing responses whose first page declares
`total = T` with `T` exceeding the first page's row count, and with page size
`S > 0` taken from the payload template, `fetch_all_real_train_info` issues
exactly `ceil(T/S)` page requests, at consecutive page numbers starting at
`start_page_number`, and returns the concatenation of all pages' rows in
ascending page order (rows within a page in server order). -/
theorem claim_C1_pagination {Row : Type} (post : Nat → ListResponse Row)
    (S start_page : Nat) (hS : 0 < S)
    (hT : (post start_page).rows.length < (post start_page).total) :
    (fetch_all_real_train_info post S start_page).requests =
      (List.range (((post start_page).total + S - 1) / S)).map
        (fun i => start_page + i) ∧
    (fetch_all_real_train_info post S start_page).all_rows =
      ((List.range (((post start_page).total + S - 1) / S)).map
        (fun i => (post (start_page + i)).rows)).flatten := by
  have hpos : 0 < ((post start_page).total + S - 1) / S := by
    rw [Nat.lt_iff_add_one_le, Nat.one_le_div_iff hS]
    omega
  unfold fetch_all_real_train_info
  simp only [if_neg (by omega : ¬ (post start_page).total ≤
    (post start_page).rows.length)]
  rw [fetch_loop_spec, range_split _ hpos]
  constructor
  · simp
  · simp

/-- post_example is a concrete well-formed mock listing server:
`total = 450`, pages of 200, 200 and 50 rows. -/
def post_example : Nat → ListResponse Nat
  | 0 => ⟨450, List.replicate 200 0⟩
  | 1 => ⟨450, List.replicate 200 1⟩
  | 2 => ⟨450, List.replicate 50 2⟩
  | _ => ⟨450, []⟩

set_option maxRecDepth 8000 in
/-- C1 witness: with `total = 450` and `page_size = 200`, the fetcher issues
exactly the 3 page requests `[0, 1, 2]` and returns 450 rows. -/
theorem claim_C1_pagination_witness :
    (post_example 0).rows.length < (post_example 0).total ∧
    (fetch_all_real_train_info post_example 200 0).requests = [0, 1, 2] ∧
    (fetch_all_real_train_info post_example 200 0).all_rows.length = 450 := by
  refine ⟨by decide, ?_, by rfl⟩
  have h := claim_C1_pagination post_example 200 0 (by decide) (by decide)
  rw [h.1]
  rfl

-- -------------------------------------------------------------------
-- Per-request retry loop with one-shot 401 re-auth (fetcher.py 169-192)
-- -------------------------------------------------------------------

/-- FErr identifies an exception raised during one attempt: either the
transport raised while posting (timeout, connection failure, ...) or
`raise_for_status` raised `HTTPError` for an error status. -/
inductive FErr
  | transport (id : Nat)
  | http (status : Nat)
deriving DecidableEq, Repr

/-- Raised is what `raise last_exc` at the end of `_post_with_retry` does:
re-raise the recorded exception, or — when `last_exc` is still `None` —
Python's `raise None`, which raises a `TypeError`, not a transport error. -/
inductive Raised
  | err (e : FErr)
  | typeError
deriving DecidableEq, Repr

/-- Attempt is the transport's behaviour for one iteration of the retry
loop: either `session.post` raises, or it returns a response with a status
code and (parsed) body.  `flow` is the outcome of `_run_auth_link_flow` in
case this attempt takes the 401 re-auth branch: `none` when the flow returns
normally, `some e` when the flow itself raises `e` (its own
`raise_for_status` or transport failure). -/
inductive Attempt (Body : Type)
  | exc (id : Nat)
  | resp (status : Nat) (body : Body) (flow : Option FErr)

/-- PostResult of one `_post_with_retry` call: the returned body or raised
error, the `auth_link_state["used"]` flag after the call, and how many times
`_run_auth_link_flow` was invoked during the call. -/
structure PostResult (Body : Type) where
  result : Except Raised Body
  used : Bool
  reauths : Nat

/-- post_with_retry models `_post_with_retry` (fetcher.py lines 169-192).
The attempt list stands for the up-to-`retries` loop iterations; `used` is
the shared `auth_link_state["used"]` flag on entry and `last` the current
`last_exc`.  On a 401 with the flag unset and the flow enabled, the flow
runs and — only if it returns normally — the flag is set, then the loop
continues; note a raising flow is caught by the blanket `except`, records
the flow's exception and leaves the flag unset. -/
def post_with_retry {Body : Type} (enabled : Bool) :
    List (Attempt Body) → Bool → Option FErr → PostResult Body
  | [], used, last =>
    ⟨.error (match last with | some e => .err e | none => .typeError),
     used, 0⟩
  | .exc i :: rest, used, _ =>
    post_with_retry enabled rest used (some (.transport i))
  | .resp s b flow :: rest, used, last =>
    if s = 401 ∧ used = false ∧ enabled = true then
      match flow with
      | none =>
        let r := post_with_retry enabled rest true last
        ⟨r.result, r.used, r.reauths + 1⟩
      | some e =>
        let r := post_with_retry enabled rest false (some e)
        ⟨r.result, r.used, r.reauths + 1⟩
    else if 400 ≤ s ∧ s < 600 then
      post_with_retry enabled rest used (some (.http s))
    else
      ⟨.ok b, used, 0⟩

/-- post_with_retry_plain is the same retry loop without any 401 special
case: every error status is recorded and retried — the "ordinary failure
subject to the normal retry/backoff policy" behaviour. -/
def post_with_retry_plain {Body : Type} :
    List (Attempt Body) → Option FErr → Except Raised Body
  | [], last => .error (match last with | some e => .err e | none => .typeError)
  | .exc i :: rest, _ => post_with_retry_plain rest (some (.transport i))
  | .resp s b _ :: rest, _ =>
    if 400 ≤ s ∧ s < 600 then post_with_retry_plain rest (some (.http s))
    else .ok b

/-- fetch_run models the sequence of `_post_with_retry` calls one
`fetch_all_real_train_info` call makes (first page, then the page loop),
threading the shared `used` flag and stopping when a page call raises.  It
returns the total number of `_run_auth_link_flow` invocations and the final
flag. -/
def fetch_run {Body : Type} (enabled : Bool) :
    List (List (Attempt Body)) → Bool → Nat × Bool
  | [], used => (0, used)
  | page :: rest, used =>
    let r := post_with_retry enabled page used none
    match r.result with
    | .error _ => (r.reauths, r.used)
    | .ok _ =>
      let t := fetch_run enabled rest r.used
      (r.reauths + t.1, t.2)

/-- flow_ok holds for attempts whose auth-link flow (if consulted) returns
without raising. -/
def flow_ok {Body : Type} : Attempt Body → Bool
  | .resp _ _ (some _) => false
  | _ => true

/-- post_used_true: once the one-shot flag is set, `_post_with_retry` is
exactly the plain retry loop — a 401 is an ordinary recorded failure, the
auth-link flow is never invoked and the flag stays set. -/
theorem post_used_true {Body : Type} (enabled : Bool)
    (attempts : List (Attempt Body)) (last : Option FErr) :
    post_with_retry enabled attempts true last =
      ⟨post_with_retry_plain attempts last, true, 0⟩ := by
  induction attempts generalizing last with
  | nil => rfl
  | cons a rest ih =>
    cases a with
    | exc i =>
      simpa [post_with_retry, post_with_retry_plain] using ih _
    | resp s b flow =>
      simp only [post_with_retry, post_with_retry_plain]
      rw [if_neg (by simp)]
      by_cases h : 400 ≤ s ∧ s < 600 <;> simp [h, ih]

/-- post_used_false_bound: starting with the flag unset, provided every
consulted auth-link flow completes without raising, one `_post_with_retry`
call invokes the flow at most once, and if it invoked it at all the flag is
set on exit. -/
theorem post_used_false_bound {Body : Type} (enabled : Bool)
    (attempts : List (Attempt Body)) (last : Option FErr)
    (hflow : ∀ a ∈ attempts, flow_ok a) :
    (post_with_retry enabled attempts false last).reauths ≤ 1 ∧
    ((post_with_retry enabled attempts false last).used = true ∨
     ((post_with_retry enabled attempts false last).used = false ∧
      (post_with_retry enabled attempts false last).reauths = 0)) := by
  induction attempts generalizing last with
  | nil => simp [post_with_retry]
  | cons a rest ih =>
    cases a with
    | exc i =>
      simpa [post_with_retry] using
        ih _ (fun x hx => hflow x (List.mem_cons_of_mem _ hx))
    | resp s b flow =>
      have hf : flow_ok (Attempt.resp s b flow) :=
        hflow _ (List.mem_cons_self _ _)
      cases flow with
      | some e => simp [flow_ok] at hf
      | none =>
        have hun : post_with_retry enabled (Attempt.resp s b none :: rest)
            false last =
          if s = 401 ∧ (false : Bool) = false ∧ enabled = true then
            ⟨(post_with_retry enabled rest true last).result,
             (post_with_retry enabled rest true last).used,
             (post_with_retry enabled rest true last).reauths + 1⟩
          else if 400 ≤ s ∧ s < 600 then
            post_with_retry enabled rest false (some (FErr.http s))
          else ⟨Except.ok b, false, 0⟩ := rfl
        rw [hun]
        by_cases h : s = 401 ∧ enabled = true
        · rw [if_pos ⟨h.1, rfl, h.2⟩, post_used_true]
          simp
        · rw [if_neg (fun hc => h ⟨hc.1, hc.2.2⟩)]
          by_cases h2 : 400 ≤ s ∧ s < 600
          · rw [if_pos h2]
            exact ih _ (fun x hx => hflow x (List.mem_cons_of_mem _ hx))
          · rw [if_neg h2]
            simp

/-- run_used_true: a fetch run whose flag is already set never invokes the
auth-link flow again and keeps the flag set. -/
theorem run_used_true {Body : Type} (enabled : Bool)
    (pages : List (List (Attempt Body))) :
    fetch_run enabled pages true = (0, true) := by
  induction pages with
  | nil => rfl
  | cons p rest ih =>
    simp only [fetch_run, post_used_true]
    cases hr : post_with_retry_plain p (none : Option FErr) <;> simp [ih]

/-- cex_page_C4 is a single page request for which the first 401's
auth-link flow itself raises, so the one-shot flag is never set and the
second 401 triggers the flow again. -/
def cex_page_C4 : List (Attempt Unit) :=
  [Attempt.resp 401 () (some (FErr.transport 5)),
   Attempt.resp 401 () none,
   Attempt.resp 200 () none]

/-- C4 counterexample: the claim says the re-authentication detour is
triggered at most once per fetch call and that every 401 after the first
never triggers it again.  On this run a single page request triggers
`_run_auth_link_flow` twice: the first 401 triggers the flow, the flow
raises before `auth_link_state["used"] = True` executes (the assignment
follows the call), the exception is caught by the blanket `except`, and the
next 401 triggers the flow a second time. -/
theorem claim_C4_counterexample :
    (fetch_run true [cex_page_C4] false).1 = 2 := by
  rfl

/-- C4 amended: provided every consulted auth-link flow completes without
raising, (a) a whole fetch run triggers the re-auth detour at most once
across all pages and retry attempts; (b) once the one-shot flag is set,
every later 401 is an ordinary failure handled by the plain retry policy
and the flow is never invoked again; (c) the first 401 (flow enabled, flag
unset, flow completing) consumes its attempt and the same page request
continues with the remaining retry attempts and the flag set. -/
theorem claim_C4_amended {Body : Type} :
    (∀ (enabled : Bool) (pages : List (List (Attempt Body))),
        (∀ p ∈ pages, ∀ a ∈ p, flow_ok a) →
        (fetch_run enabled pages false).1 ≤ 1) ∧
    (∀ (enabled : Bool) (attempts : List (Attempt Body)) (last : Option FErr),
        post_with_retry enabled attempts true last =
          ⟨post_with_retry_plain attempts last, true, 0⟩) ∧
    (∀ (b : Body) (rest : List (Attempt Body)) (last : Option FErr),
        post_with_retry true (Attempt.resp 401 b none :: rest) false last =
          ⟨(post_with_retry true rest true last).result,
           (post_with_retry true rest true last).used,
           (post_with_retry true rest true last).reauths + 1⟩) := by
  refine ⟨?_, post_used_true, ?_⟩
  · intro enabled pages hflow
    induction pages with
    | nil => simp [fetch_run]
    | cons p rest ih =>
      have hp := post_used_false_bound enabled p none
        (hflow p (List.mem_cons_self _ _))
      have ih' := ih (fun q hq => hflow q (List.mem_cons_of_mem _ hq))
      simp only [fetch_run]
      cases hres : (post_with_retry enabled p false none).result with
      | error e => exact hp.1
      | ok v =>
        rcases hp.2 with hu | ⟨hu, hz⟩
        · rw [hu, run_used_true]
          simpa using hp.1
        · rw [hu, hz]
          simpa using ih'
  · intro b rest last
    simp [post_with_retry]

/-- C4 witness: the amended statement applied at a concrete run — one page
whose first attempt is a 401 with a completing flow, then a success — makes
exactly one detour; and with the flag already set a 401 page is handled by
the plain policy. -/
theorem claim_C4_amended_witness :
    (fetch_run true
      [[Attempt.resp 401 () none, Attempt.resp 200 () none]] false).1 ≤ 1 ∧
    post_with_retry true [Attempt.resp 401 () none] true none =
      ⟨post_with_retry_plain [Attempt.resp 401 () none] none, true, 0⟩ := by
  exact ⟨(claim_C4_amended.1) true _ (by decide),
         (claim_C4_amended.2.1) true _ none⟩

-- -------------------------------------------------------------------
-- Retry exhaustion: what `raise last_exc` re-raises (C5)
-- -------------------------------------------------------------------

/-- last_raised folds the sequence of errors the loop records into
`last_exc` and applies the final `raise last_exc`: the last recorded error
is re-raised, and with nothing recorded Python's `raise None` raises a
`TypeError`. -/
def last_raised : List FErr → Option FErr → Raised
  | [], some e => .err e
  | [], none => .typeError
  | x :: l, _ => last_raised l (some x)

/-- recorded_errs lists, in order, the errors the retry loop assigns to
`last_exc`: a transport exception or an error-status `HTTPError` on each
failing attempt — except that a 401 taken by the re-auth detour records
nothing when the flow completes (the `continue` skips `raise_for_status`),
and records the flow's own exception when the flow raises.  The list stops
at the first successful attempt. -/
def recorded_errs {Body : Type} (enabled : Bool) :
    List (Attempt Body) → Bool → List FErr
  | [], _ => []
  | .exc i :: rest, used => .transport i :: recorded_errs enabled rest used
  | .resp s _ flow :: rest, used =>
    if s = 401 ∧ used = false ∧ enabled = true then
      match flow with
      | none => recorded_errs enabled rest true
      | some e => e :: recorded_errs enabled rest false
    else if 400 ≤ s ∧ s < 600 then .http s :: recorded_errs enabled rest used
    else []

/-- post_raises_recorded: whenever `_post_with_retry` ends by raising, the
value raised is determined by the recorded-error sequence — the last
recorded error, else the entry value of `last_exc`, else `TypeError`. -/
theorem post_raises_recorded {Body : Type} (enabled : Bool)
    (attempts : List (Attempt Body)) :
    ∀ (used : Bool) (last : Option FErr) (r : Raised),
    (post_with_retry enabled attempts used last).result = .error r →
    r = last_raised (recorded_errs enabled attempts used) last := by
  induction attempts with
  | nil =>
    intro used last r h
    cases last <;> simpa [post_with_retry, recorded_errs, last_raised]
      using h.symm
  | cons a rest ih =>
    intro used last r h
    cases a with
    | exc i =>
      exact ih used (some (FErr.transport i)) r h
    | resp s b flow =>
      cases flow with
      | none =>
        have hun : post_with_retry enabled (Attempt.resp s b none :: rest)
            used last =
          if s = 401 ∧ used = false ∧ enabled = true then
            ⟨(post_with_retry enabled rest true last).result,
             (post_with_retry enabled rest true last).used,
             (post_with_retry enabled rest true last).reauths + 1⟩
          else if 400 ≤ s ∧ s < 600 then
            post_with_retry enabled rest used (some (FErr.http s))
          else ⟨Except.ok b, used, 0⟩ := rfl
        have hrec : recorded_errs enabled
            (Attempt.resp s b none :: rest) used =
          if s = 401 ∧ used = false ∧ enabled = true then
            recorded_errs enabled rest true
          else if 400 ≤ s ∧ s < 600 then
            FErr.http s :: recorded_errs enabled rest used
          else [] := rfl
        rw [hun] at h
        rw [hrec]
        by_cases hc : s = 401 ∧ used = false ∧ enabled = true
        · rw [if_pos hc] at h ⊢
          exact ih true last r h
        · rw [if_neg hc] at h ⊢
          by_cases h2 : 400 ≤ s ∧ s < 600
          · rw [if_pos h2] at h ⊢
            exact ih used (some (FErr.http s)) r h
          · rw [if_neg h2] at h
            simp at h
      | some e =>
        have hun : post_with_retry enabled
            (Attempt.resp s b (some e) :: rest) used last =
          if s = 401 ∧ used = false ∧ enabled = true then
            ⟨(post_with_retry enabled rest false (some e)).result,
             (post_with_retry enabled rest false (some e)).used,
             (post_with_retry enabled rest false (some e)).reauths + 1⟩
          else if 400 ≤ s ∧ s < 600 then
            post_with_retry enabled rest used (some (FErr.http s))
          else ⟨Except.ok b, used, 0⟩ := rfl
        have hrec : recorded_errs enabled
            (Attempt.resp s b (some e) :: rest) used =
          if s = 401 ∧ used = false ∧ enabled = true then
            e :: recorded_errs enabled rest false
          else if 400 ≤ s ∧ s < 600 then
            FErr.http s :: recorded_errs enabled rest used
          else [] := rfl
        rw [hun] at h
        rw [hrec]
        by_cases hc : s = 401 ∧ used = false ∧ enabled = true
        · rw [if_pos hc] at h ⊢
          exact ih false (some e) r h
        · rw [if_neg hc] at h ⊢
          by_cases h2 : 400 ≤ s ∧ s < 600
          · rw [if_pos h2] at h ⊢
            exact ih used (some (FErr.http s)) r h
          · rw [if_neg h2] at h
            simp at h

-- -------------------------------------------------------------------
-- Export downloader (fetcher.py lines 278-338)
-- -------------------------------------------------------------------

/-- DownErr is what `download_export_loaded_box_xlsx` can raise: the
empty-codes `ValueError`, a re-raised transport/HTTP error, or the
fallback `RuntimeError` when the loop ends with `last_exc` still `None`. -/
inductive DownErr
  | valueError
  | raised (e : FErr)
  | runtimeError
deriving DecidableEq, Repr

/-- DownAttempt is the transport behaviour of one download attempt. -/
inductive DownAttempt
  | exc (id : Nat)
  | resp (status : Nat)
deriving DecidableEq, Repr

/-- DownloadResult: the outcome and the number of HTTP POSTs issued. -/
structure DownloadResult where
  result : Except DownErr PyStr
  requests : Nat

/-- download_loop models the retry loop of fetcher.py lines 315-338: each
failing attempt records its exception; a non-error status writes the file
and returns `out_path`; exhaustion re-raises `last_exc`, or the fallback
`RuntimeError` when no exception was recorded. -/
def download_loop (out_path : PyStr) :
    List DownAttempt → Option FErr → DownloadResult
  | [], last =>
    ⟨.error (match last with
             | some e => .raised e
             | none => .runtimeError), 0⟩
  | .exc i :: rest, _ =>
    let r := download_loop out_path rest (some (.transport i))
    ⟨r.result, r.requests + 1⟩
  | .resp s :: rest, _ =>
    if 400 ≤ s ∧ s < 600 then
      let r := download_loop out_path rest (some (.http s))
      ⟨r.result, r.requests + 1⟩
    else ⟨.ok out_path, 1⟩

/-- download_export_loaded_box_xlsx models fetcher.py lines 278-338: the
empty-codes guard raises `ValueError` before the session is created or any
POST is issued; otherwise the retry loop runs against the transport's
attempt outcomes.  (Header env-injection and the file write are I/O and
are abstracted away; the comma-joined payload does not influence the
modelled control flow.) -/
def download_export_loaded_box_xlsx (real_train_codes : List PyStr)
    (out_path : PyStr) (attempts : List DownAttempt) : DownloadResult :=
  if real_train_codes = [] then ⟨.error .valueError, 0⟩
  else download_loop out_path attempts none

/-- down_last_raised is `last_raised` for the download loop, whose
no-exception fallback is an explicit `RuntimeError`. -/
def down_last_raised : List FErr → Option FErr → DownErr
  | [], some e => .raised e
  | [], none => .runtimeError
  | x :: l, _ => down_last_raised l (some x)

/-- down_recorded lists the errors the download loop records: every
failing attempt records its error (there is no 401 special case on this
path); the list stops at the first success. -/
def down_recorded : List DownAttempt → List FErr
  | [] => []
  | .exc i :: rest => .transport i :: down_recorded rest
  | .resp s :: rest =>
    if 400 ≤ s ∧ s < 600 then .http s :: down_recorded rest else []

/-- download_raises_recorded: when the download loop ends by raising, the
value raised is the last recorded error, or `RuntimeError` when nothing
was recorded. -/
theorem download_raises_recorded (out_path : PyStr)
    (attempts : List DownAttempt) :
    ∀ (last : Option FErr) (r : DownErr),
    (download_loop out_path attempts last).result = .error r →
    r = down_last_raised (down_recorded attempts) last := by
  induction attempts with
  | nil =>
    intro last r h
    cases last <;> simpa [download_loop, down_recorded, down_last_raised]
      using h.symm
  | cons a rest ih =>
    intro last r h
    cases a with
    | exc i => exact ih (some (FErr.transport i)) r h
    | resp s =>
      have hun : (download_loop out_path (DownAttempt.resp s :: rest)
          last).result =
        if 400 ≤ s ∧ s < 600 then
          (download_loop out_path rest (some (FErr.http s))).result
        else .ok out_path := by
        simp only [download_loop]
        by_cases h2 : 400 ≤ s ∧ s < 600 <;> simp [h2]
      rw [hun] at h
      have hrec : down_recorded (DownAttempt.resp s :: rest) =
        if 400 ≤ s ∧ s < 600 then FErr.http s :: down_recorded rest
        else [] := rfl
      rw [hrec]
      by_cases h2 : 400 ≤ s ∧ s < 600
      · rw [if_pos h2] at h ⊢
        exact ih (some (FErr.http s)) r h
      · rw [if_neg h2] at h
        simp at h

/-- attempt_error reads off, following the claim's words, the
transport/HTTP error that occurs on one attempt: the transport exception,
or the HTTP error of an error-status response (a 401 included); `none` for
a successful attempt. -/
def attempt_error {Body : Type} : Attempt Body → Option FErr
  | .exc i => some (.transport i)
  | .resp s _ _ => if 400 ≤ s ∧ s < 600 then some (.http s) else none

/-- cex_attempts_C5: a transport failure, then a 401 that is consumed by
the re-auth detour on the final attempt. -/
def cex_attempts_C5 : List (Attempt Unit) :=
  [Attempt.exc 7, Attempt.resp 401 () none]

/-- C5 counterexample: the claim says that when every attempt fails the
*last* transport/HTTP error that occurred is re-raised, including on paths
through the 401 re-auth branch.  Here both attempts fail; the last error to
occur is the HTTP 401, but because the detour's `continue` skips
`raise_for_status`, that 401 is never assigned to `last_exc` and the
earlier transport error is re-raised instead. -/
theorem claim_C5_counterexample :
    (post_with_retry true cex_attempts_C5 false none).result =
      Except.error (Raised.err (FErr.transport 7)) ∧
    (cex_attempts_C5.filterMap attempt_error).getLast? =
      some (FErr.http 401) ∧
    Raised.err (FErr.transport 7) ≠ Raised.err (FErr.http 401) := by
  exact ⟨rfl, rfl, by decide⟩

/-- C5 amended: when every attempt fails, the error re-raised is the last
*recorded* error: each failing attempt records its transport/HTTP error,
except that the single 401 consumed by the re-auth detour records nothing
when the auth-link flow completes (and records the flow's own exception
when the flow raises); with nothing recorded, the listing path raises a
`TypeError` (Python's `raise None`) and the download path its
`RuntimeError` fallback — not a transport/HTTP error.  The download loop
has no 401 branch, so there every failing attempt records its error. -/
theorem claim_C5_amended :
    (∀ (Body : Type) (enabled : Bool) (attempts : List (Attempt Body))
        (r : Raised),
        (post_with_retry enabled attempts false none).result =
          Except.error r →
        r = last_raised (recorded_errs enabled attempts false) none) ∧
    (∀ (codes : List PyStr) (out_path : PyStr)
        (attempts : List DownAttempt) (r : DownErr), codes ≠ [] →
        (download_export_loaded_box_xlsx codes out_path attempts).result =
          Except.error r →
        r = down_last_raised (down_recorded attempts) none) := by
  constructor
  · intro Body enabled attempts r h
    exact post_raises_recorded enabled attempts false none r h
  · intro codes out_path attempts r hne h
    have hd : download_export_loaded_box_xlsx codes out_path attempts =
        download_loop out_path attempts none := by
      unfold download_export_loaded_box_xlsx
      rw [if_neg hne]
    rw [hd] at h
    exact download_raises_recorded out_path attempts none r h

/-- C5 witness: the amended statement applied to a run of two failing
transport attempts (listing path) and to a single failing 500 attempt
(download path, non-empty code list). -/
theorem claim_C5_amended_witness :
    Raised.err (FErr.transport 4) =
      last_raised (recorded_errs true
        ([Attempt.exc 3, Attempt.exc 4] : List (Attempt Unit)) false) none ∧
    DownErr.raised (FErr.http 500) =
      down_last_raised (down_recorded [DownAttempt.resp 500]) none := by
  exact ⟨claim_C5_amended.1 Unit true [Attempt.exc 3, Attempt.exc 4] _ rfl,
         claim_C5_amended.2 [['T']] [] [DownAttempt.resp 500] _
           (by simp) rfl⟩

/-- download_loop_no_value_error: the retry loop itself never produces the
empty-codes `ValueError`. -/
theorem download_loop_no_value_error (out_path : PyStr)
    (attempts : List DownAttempt) :
    ∀ (last : Option FErr),
    (download_loop out_path attempts last).result ≠
      Except.error DownErr.valueError := by
  induction attempts with
  | nil =>
    intro last h
    cases last <;> simp [download_loop] at h
  | cons a rest ih =>
    intro last
    cases a with
    | exc i => exact ih (some (FErr.transport i))
    | resp s =>
      by_cases h2 : 400 ≤ s ∧ s < 600
      · simpa [download_loop, h2] using ih (some (FErr.http s))
      · simp [download_loop, h2]

/-- C6: `download_export_loaded_box_xlsx` raises its `ValueError` exactly
when the code list is empty — the guard fires before the session is
created and before any HTTP POST is issued (zero requests) — and for every
non-empty code list that error is never raised. -/
theorem claim_C6_empty_guard :
    (∀ (out_path : PyStr) (attempts : List DownAttempt),
        (download_export_loaded_box_xlsx [] out_path attempts).result =
          Except.error DownErr.valueError ∧
        (download_export_loaded_box_xlsx [] out_path attempts).requests
          = 0) ∧
    (∀ (codes : List PyStr) (out_path : PyStr)
        (attempts : List DownAttempt), codes ≠ [] →
        (download_export_loaded_box_xlsx codes out_path attempts).result ≠
          Except.error DownErr.valueError) := by
  constructor
  · intro out_path attempts
    exact ⟨rfl, rfl⟩
  · intro codes out_path attempts hne
    have hd : download_export_loaded_box_xlsx codes out_path attempts =
        download_loop out_path attempts none := by
      unfold download_export_loaded_box_xlsx
      rw [if_neg hne]
    rw [hd]
    exact download_loop_no_value_error out_path attempts none

/-- C6 witness: the empty list raises the guard's `ValueError` with no
request issued; a singleton code list never does. -/
theorem claim_C6_empty_guard_witness :
    (download_export_loaded_box_xlsx [] [] []).result =
      Except.error DownErr.valueError ∧
    (download_export_loaded_box_xlsx [['T']] []
      [DownAttempt.resp 200]).result ≠
      Except.error DownErr.valueError := by
  exact ⟨(claim_C6_empty_guard.1 [] []).1,
         claim_C6_empty_guard.2 [['T']] [] [DownAttempt.resp 200]
           (by simp)⟩

-- -------------------------------------------------------------------
-- Row filter (fetcher.py lines 242-272)
-- -------------------------------------------------------------------

/-- TrainRow models a listing row as the filter reads it: the values of
`r.get("departure_date")` and `r.get("real_train_code")`, each possibly
absent/None. -/
structure TrainRow where
  departure_date : Option PyStr
  real_train_code : Option PyStr

/-- py_or_empty models Python's `(x or "")` on an optional string. -/
def py_or_empty (x : Option PyStr) : PyStr := x.getD []

/-- filter_codes_for_day.step is one iteration of the collection loop of
fetcher.py lines 256-262: strip the departure value, keep the row when the
stripped string has length at least 10 and its first 10 characters equal
`day`, and append the stripped code when non-empty. -/
def filter_codes_for_day.step (day : PyStr) (acc : List PyStr)
    (r : TrainRow) : List PyStr :=
  let dep := py_strip (py_or_empty r.departure_date)
  if 10 ≤ dep.length ∧ dep.take 10 = day then
    let code := py_strip (py_or_empty r.real_train_code)
    if code ≠ [] then acc ++ [code] else acc
  else acc

/-- filter_codes_for_day models fetcher.py lines 242-272: collect the codes
of the day's rows, then deduplicate keeping first occurrences (the
seen-set loop of lines 265-270). -/
def filter_codes_for_day (rows : List TrainRow) (day : PyStr) :
    List PyStr :=
  drop_duplicates (fun c => c)
    (rows.foldl (filter_codes_for_day.step day) [])

/-- claim_C3_filter restates C3 literally: select rows whose departure
string — as returned by the server, with no trimming — has length at least
10 and first 10 characters equal to `day`; then extract the codes, trim
them, drop empties and deduplicate keeping first occurrence. -/
def claim_C3_filter (rows : List TrainRow) (day : PyStr) : List PyStr :=
  drop_duplicates (fun c => c)
    (((rows.filter (fun r =>
        decide (10 ≤ (py_or_empty r.departure_date).length ∧
          (py_or_empty r.departure_date).take 10 = day))).map
      (fun r => py_strip (py_or_empty r.real_train_code))).filter
      (fun c => decide (c ≠ [])))

/-- selected_codes_amended is C3's pipeline with the one correction the
code forces: the departure string is stripped of surrounding whitespace
before the length/first-10-characters test. -/
def selected_codes_amended (rows : List TrainRow) (day : PyStr) :
    List PyStr :=
  ((rows.filter (fun r =>
      decide (10 ≤ (py_strip (py_or_empty r.departure_date)).length ∧
        (py_strip (py_or_empty r.departure_date)).take 10 = day))).map
    (fun r => py_strip (py_or_empty r.real_train_code))).filter
    (fun c => decide (c ≠ []))

/-- cex_row_C3 has a departure value with a leading space: its first 10
characters are not "2024-06-01", yet the code selects it after stripping. -/
def cex_row_C3 : TrainRow :=
  ⟨some " 2024-06-01".toList, some "T9".toList⟩

/-- C3 counterexample: the code strips the departure value before the
10-character comparison, so a row whose raw departure string fails the
claim's test (its first 10 characters are " 2024-06-0") is nevertheless
selected; the claim's pipeline returns no code for it. -/
theorem claim_C3_counterexample :
    filter_codes_for_day [cex_row_C3] "2024-06-01".toList =
      ["T9".toList] ∧
    claim_C3_filter [cex_row_C3] "2024-06-01".toList = [] := by
  exact ⟨rfl, rfl⟩

/-- codes_foldl_spec characterises the collection loop as
filter-map-filter over the rows. -/
theorem codes_foldl_spec (day : PyStr) (rows : List TrainRow) :
    ∀ acc : List PyStr,
    rows.foldl (filter_codes_for_day.step day) acc =
      acc ++ selected_codes_amended rows day := by
  induction rows with
  | nil => intro acc; simp [selected_codes_amended]
  | cons r rest ih =>
    intro acc
    simp only [List.foldl_cons, ih, selected_codes_amended,
      filter_codes_for_day.step, List.filter_cons]
    by_cases h1 : 10 ≤ (py_strip (py_or_empty r.departure_date)).length ∧
        (py_strip (py_or_empty r.departure_date)).take 10 = day
    · by_cases h2 : py_strip (py_or_empty r.real_train_code) ≠ []
      · simp [h1, h2, List.filter_cons]
      · simp [h1, h2, List.filter_cons]
    · simp [h1]

/-- C3 amended: with no range given, the filter selects exactly the rows
whose departure string, after trimming surrounding whitespace, has length
at least 10 and first 10 characters equal to `day` (a pure string
comparison; shorter or malformed values are silently excluded), and
returns their codes trimmed, with empties dropped and duplicates removed
preserving first-occurrence order; on the claim's example rows the result
is exactly [T1, T2]. -/
theorem claim_C3_amended :
    (∀ (rows : List TrainRow) (day : PyStr),
        filter_codes_for_day rows day =
          drop_duplicates (fun c => c) (selected_codes_amended rows day)) ∧
    filter_codes_for_day
      [⟨some "2024-06-01".toList, some "T1".toList⟩,
       ⟨some "2024-06-01 12:00:00".toList, some "T2".toList⟩,
       ⟨some "2024-06-02".toList, some "T3".toList⟩]
      "2024-06-01".toList = ["T1".toList, "T2".toList] := by
  constructor
  · intro rows day
    unfold filter_codes_for_day
    rw [codes_foldl_spec]
    rfl
  · rfl

-- -------------------------------------------------------------------
-- Range-aware row filter (spec §4.6; referenced by
-- src/tests/test_fetcher.py but not defined under src/)
-- -------------------------------------------------------------------

/-- PyDateTime is a parsed timestamp with calendar fields, ordered
lexicographically. -/
structure PyDateTime where
  year : Nat
  month : Nat
  day : Nat
  hour : Nat
  minute : Nat
  second : Nat
deriving DecidableEq, Repr

/-- dt_le is the lexicographic order on parsed timestamps. -/
def dt_le (a b : PyDateTime) : Bool :=
  if a.year ≠ b.year then decide (a.year < b.year)
  else if a.month ≠ b.month then decide (a.month < b.month)
  else if a.day ≠ b.day then decide (a.day < b.day)
  else if a.hour ≠ b.hour then decide (a.hour < b.hour)
  else if a.minute ≠ b.minute then decide (a.minute < b.minute)
  else decide (a.second ≤ b.second)

/-- digit_val reads one decimal digit. -/
def digit_val (c : Char) : Option Nat :=
  if c.isDigit then some (c.toNat - 48) else none

/-- parse2 reads a two-digit field. -/
def parse2 (c1 c2 : Char) : Option Nat := do
  let a ← digit_val c1
  let b ← digit_val c2
  pure (a * 10 + b)

/-- parse4 reads a four-digit field. -/
def parse4 (c1 c2 c3 c4 : Char) : Option Nat := do
  let a ← parse2 c1 c2
  let b ← parse2 c3 c4
  pure (a * 100 + b)

/-- mk_datetime validates the field ranges and builds the timestamp. -/
def mk_datetime (y mo d h mi s : Nat) : Option PyDateTime :=
  if 1 ≤ mo ∧ mo ≤ 12 ∧ 1 ≤ d ∧ d ≤ 31 ∧ h ≤ 23 ∧ mi ≤ 59 ∧ s ≤ 59 then
    some ⟨y, mo, d, h, mi, s⟩
  else none

/-- Modelled from the spec: `_parse_departure_datetime` is imported by
src/tests/test_fetcher.py from fetcher but is not defined under src/.
Spec §4.6: accepted timestamp formats are `YYYY-MM-DD HH:MM:SS` and
`YYYY-MM-DD`; any other format fails to parse (`None`).  A bare date
parses to midnight, matching the test
`_parse_departure_datetime("2024-01-02") == datetime(2024, 1, 2)`.
Calendar-fine day-of-month validation beyond the plain field ranges is
not modelled. -/
def parse_departure_datetime : PyStr → Option PyDateTime
  | [y1, y2, y3, y4, '-', m1, m2, '-', d1, d2] => do
    let y ← parse4 y1 y2 y3 y4
    let mo ← parse2 m1 m2
    let d ← parse2 d1 d2
    mk_datetime y mo d 0 0 0
  | [y1, y2, y3, y4, '-', m1, m2, '-', d1, d2, ' ',
     h1, h2, ':', n1, n2, ':', s1, s2] => do
    let y ← parse4 y1 y2 y3 y4
    let mo ← parse2 m1 m2
    let d ← parse2 d1 d2
    let h ← parse2 h1 h2
    let n ← parse2 n1 n2
    let sec ← parse2 s1 s2
    mk_datetime y mo d h n sec
  | _ => none

/-- day_match_bool is the 10-character day comparison used on the
fallback path. -/
def day_match_bool (dep day : PyStr) : Bool :=
  decide (10 ≤ dep.length ∧ dep.take 10 = day)

/-- Modelled from the spec: `filter_train_codes_by_day` is called by
src/tests/test_fetcher.py but is not defined under src/ (src only has the
range-less `filter_codes_for_day`).  Spec §4.6: when `departureDateStart`
and `departureDateEnd` are both provided and parse successfully, a row is
selected when its parsed departure timestamp falls in the inclusive range;
a row whose departure value fails to parse falls back to the 10-character
day comparison instead of aborting.  Without a usable range, rows are
selected by the day comparison.  Selected rows' codes are extracted,
trimmed, empties dropped, and deduplicated preserving first occurrence. -/
def filter_train_codes_by_day (rows : List TrainRow) (day : PyStr)
    (departureDateStart departureDateEnd : Option PyStr) : List PyStr :=
  let range : Option (PyDateTime × PyDateTime) :=
    match departureDateStart, departureDateEnd with
    | some s, some e =>
      match parse_departure_datetime s, parse_departure_datetime e with
      | some ps, some pe => some (ps, pe)
      | _, _ => none
    | _, _ => none
  let selected := rows.filter (fun r =>
    let dep := py_or_empty r.departure_date
    match range with
    | some (ps, pe) =>
      match parse_departure_datetime dep with
      | some d => dt_le ps d && dt_le d pe
      | none => day_match_bool dep day
    | none => day_match_bool dep day)
  drop_duplicates (fun c => c)
    ((selected.map (fun r => py_strip (py_or_empty r.real_train_code))).filter
      (fun c => decide (c ≠ [])))

/-- test_rows_C2 are the rows of
`test_filter_train_codes_by_day_prefers_range`. -/
def test_rows_C2 : List TrainRow :=
  [⟨some "2024-06-01 08:00:00".toList, some "T1".toList⟩,
   ⟨some "2024-06-02 08:00:00".toList, some "T2".toList⟩,
   ⟨some "2024-06-03 08:00:00".toList, some "T1".toList⟩]

/-- C2: when both range endpoints are supplied and parse, the selection is
by the inclusive parsed-timestamp range — the single-day 10-character
comparison is overridden for every row whose departure parses — and on the
test's rows with day 2024-06-01 and range 2024-06-01 00:00:00 ..
2024-06-02 23:59:59 the result contains the codes of both the 2024-06-01
and the 2024-06-02 rows. -/
theorem claim_C2_range_over_day :
    (∀ (rows : List TrainRow) (day s e : PyStr) (ps pe : PyDateTime),
        parse_departure_datetime s = some ps →
        parse_departure_datetime e = some pe →
        filter_train_codes_by_day rows day (some s) (some e) =
          drop_duplicates (fun c => c)
            (((rows.filter (fun r =>
                match parse_departure_datetime (py_or_empty r.departure_date)
                  with
                | some d => dt_le ps d && dt_le d pe
                | none => day_match_bool (py_or_empty r.departure_date) day)
              ).map
              (fun r => py_strip (py_or_empty r.real_train_code))).filter
              (fun c => decide (c ≠ [])))) ∧
    filter_train_codes_by_day test_rows_C2 "2024-06-01".toList
      (some "2024-06-01 00:00:00".toList)
      (some "2024-06-02 23:59:59".toList) =
      ["T1".toList, "T2".toList] := by
  constructor
  · intro rows day s e ps pe hs he
    unfold filter_train_codes_by_day
    simp only [hs, he]
  · rfl

/-- C2 witness: the range branch of the theorem applied to the test's
concrete rows and range endpoints. -/
theorem claim_C2_range_over_day_witness :
    filter_train_codes_by_day test_rows_C2 "2024-06-01".toList
      (some "2024-06-01 00:00:00".toList)
      (some "2024-06-02 23:59:59".toList) =
      drop_duplicates (fun c => c)
        (((test_rows_C2.filter (fun r =>
            match parse_departure_datetime (py_or_empty r.departure_date)
              with
            | some d =>
              dt_le ⟨2024, 6, 1, 0, 0, 0⟩ d &&
                dt_le d ⟨2024, 6, 2, 23, 59, 59⟩
            | none =>
              day_match_bool (py_or_empty r.departure_date)
                "2024-06-01".toList)).map
          (fun r => py_strip (py_or_empty r.real_train_code))).filter
          (fun c => decide (c ≠ []))) :=
  claim_C2_range_over_day.1 test_rows_C2 "2024-06-01".toList
    "2024-06-01 00:00:00".toList "2024-06-02 23:59:59".toList
    ⟨2024, 6, 1, 0, 0, 0⟩ ⟨2024, 6, 2, 23, 59, 59⟩ rfl rfl

-- -------------------------------------------------------------------
-- Env/template resolver (utils.py lines 5-21)
-- -------------------------------------------------------------------

/-- dollar is the code point of the placeholder's first character. -/
def dollar : Char := Char.ofNat 36

/-- lbrace is the opening-brace code point. -/
def lbrace : Char := Char.ofNat 123

/-- rbrace is the closing-brace code point. -/
def rbrace : Char := Char.ofNat 125

/-- Env models the process environment: `os.getenv(k)` is `some v` when
the variable is set (possibly to the empty string) and `none` otherwise. -/
abbrev Env := PyStr → Option PyStr

/-- PyVal models the nested Python values `deep_inject_env` traverses:
strings, numbers, booleans, `None`, lists, tuples and string-keyed
dicts. -/
inductive PyVal
  | str (s : PyStr)
  | intv (n : Int)
  | boolv (b : Bool)
  | nonev
  | list (xs : List PyVal)
  | tuple (xs : List PyVal)
  | dict (xs : List (PyStr × PyVal))

/-- is_env_placeholder models the whole-string test
`data.startswith(...) and data.endswith(...)` of utils.py line 16. -/
def is_env_placeholder (s : PyStr) : Bool :=
  match s with
  | c1 :: c2 :: rest =>
    decide (c1 = dollar ∧ c2 = lbrace ∧ rest.getLast? = some rbrace)
  | _ => false

/-- placeholder_key models `data[2:-1]` of utils.py line 18. -/
def placeholder_key (s : PyStr) : PyStr := (s.drop 2).dropLast

/-- inject_str models utils.py lines 16-19: a string wholly of the
placeholder form is replaced by `os.getenv(env_key, data)` — the
variable's value when set, the literal placeholder string when unset. -/
def inject_str (env : Env) (s : PyStr) : PyStr :=
  if is_env_placeholder s then
    match env (placeholder_key s) with
    | some v => v
    | none => s
  else s

mutual

/-- deep_inject_env models utils.py lines 5-21: recurse through dicts,
lists and tuples, substitute whole-string placeholders, and leave every
other value unchanged. -/
def deep_inject_env (env : Env) : PyVal → PyVal
  | .dict xs => .dict (deep_inject_env_pairs env xs)
  | .list xs => .list (deep_inject_env_list env xs)
  | .tuple xs => .tuple (deep_inject_env_list env xs)
  | .str s => .str (inject_str env s)
  | .intv n => .intv n
  | .boolv b => .boolv b
  | .nonev => .nonev

/-- deep_inject_env_list recurses element-wise. -/
def deep_inject_env_list (env : Env) : List PyVal → List PyVal
  | [] => []
  | x :: xs => deep_inject_env env x :: deep_inject_env_list env xs

/-- deep_inject_env_pairs recurses over dict items, keeping keys. -/
def deep_inject_env_pairs (env : Env) :
    List (PyStr × PyVal) → List (PyStr × PyVal)
  | [] => []
  | (k, v) :: xs => (k, deep_inject_env env v) :: deep_inject_env_pairs env xs

end

/-- mk_placeholder builds the exact-form placeholder string for a name. -/
def mk_placeholder (name : PyStr) : PyStr :=
  dollar :: lbrace :: (name ++ [rbrace])

/-- inject_env_list_map: the list worker is an element-wise map. -/
theorem inject_env_list_map (env : Env) (xs : List PyVal) :
    deep_inject_env_list env xs = xs.map (deep_inject_env env) := by
  induction xs with
  | nil => rfl
  | cons x rest ih => simp [deep_inject_env_list, ih]

/-- inject_env_pairs_map: the dict worker maps values and keeps keys. -/
theorem inject_env_pairs_map (env : Env) (xs : List (PyStr × PyVal)) :
    deep_inject_env_pairs env xs =
      xs.map (fun kv => (kv.1, deep_inject_env env kv.2)) := by
  induction xs with
  | nil => rfl
  | cons x rest ih =>
    cases x
    simp [deep_inject_env_pairs, ih]

/-- placeholder_decompose: every string passing the whole-string
placeholder test is exactly `mk_placeholder` of its extracted name. -/
theorem placeholder_decompose (s : PyStr)
    (h : is_env_placeholder s = true) :
    s = mk_placeholder (placeholder_key s) := by
  match s, h with
  | c1 :: c2 :: rest, h =>
    simp only [is_env_placeholder, decide_eq_true_eq] at h
    obtain ⟨h1, h2, h3⟩ := h
    have hne : rest ≠ [] := by
      intro he
      rw [he] at h3
      simp at h3
    have hlast : rest.getLast hne = rbrace := by
      have := List.getLast?_eq_getLast rest hne
      rw [this] at h3
      exact Option.some.inj h3
    have hdecomp : rest.dropLast ++ [rbrace] = rest := by
      conv_rhs => rw [← List.dropLast_append_getLast hne]
      rw [hlast]
    subst h1 h2
    simp only [mk_placeholder, placeholder_key, List.drop_succ_cons,
      List.drop_zero, List.dropLast_cons₂]
    rw [hdecomp]

/-- mk_placeholder_is_placeholder: the exact form passes the test and its
name is extracted back. -/
theorem mk_placeholder_is_placeholder (name : PyStr) :
    is_env_placeholder (mk_placeholder name) = true ∧
    placeholder_key (mk_placeholder name) = name := by
  constructor
  · simp [is_env_placeholder, mk_placeholder]
  · simp [placeholder_key, mk_placeholder]

/-- C8: `deep_inject_env` is a pure structure-preserving transform —
dicts keep their keys with values transformed in place, lists and tuples
are mapped element-wise, non-string scalars are unchanged; a string wholly
of the form dollar-lbrace NAME rbrace becomes the value of environment
variable NAME when set and stays the literal placeholder when unset
(lenient policy); every string failing the whole-string test — in
particular one merely containing a placeholder alongside other text — is
unchanged; and every string passing the test is exactly the placeholder of
its extracted name, so the two string cases are exhaustive. -/
theorem claim_C8_deep_inject (env : Env) :
    (∀ n : Int, deep_inject_env env (.intv n) = .intv n) ∧
    (∀ b : Bool, deep_inject_env env (.boolv b) = .boolv b) ∧
    deep_inject_env env .nonev = .nonev ∧
    (∀ xs, deep_inject_env env (.list xs) =
      .list (xs.map (deep_inject_env env))) ∧
    (∀ xs, deep_inject_env env (.tuple xs) =
      .tuple (xs.map (deep_inject_env env))) ∧
    (∀ xs, deep_inject_env env (.dict xs) =
      .dict (xs.map (fun kv => (kv.1, deep_inject_env env kv.2)))) ∧
    (∀ name, deep_inject_env env (.str (mk_placeholder name)) =
      .str (match env name with
            | some v => v
            | none => mk_placeholder name)) ∧
    (∀ s, is_env_placeholder s = false →
      deep_inject_env env (.str s) = .str s) ∧
    (∀ s, is_env_placeholder s = true →
      s = mk_placeholder (placeholder_key s)) := by
  refine ⟨fun n => rfl, fun b => rfl, rfl, ?_, ?_, ?_, ?_, ?_,
    placeholder_decompose⟩
  · intro xs
    simp [deep_inject_env, inject_env_list_map]
  · intro xs
    simp [deep_inject_env, inject_env_list_map]
  · intro xs
    simp [deep_inject_env, inject_env_pairs_map]
  · intro name
    have hp := mk_placeholder_is_placeholder name
    simp only [deep_inject_env, inject_str, hp.1, if_true, hp.2]
  · intro s hs
    simp [deep_inject_env, inject_str, hs]

/-- env_example sets exactly the variable TOKEN. -/
def env_example : Env :=
  fun n => if n = "TOKEN".toList then some "abc123".toList else none

/-- C8 witness: with TOKEN set, the TOKEN placeholder is substituted; the
plain string "plain" fails the whole-string test and is unchanged. -/
theorem claim_C8_deep_inject_witness :
    deep_inject_env env_example (.str (mk_placeholder "TOKEN".toList)) =
      .str "abc123".toList ∧
    is_env_placeholder "plain".toList = false ∧
    deep_inject_env env_example (.str "plain".toList) =
      .str "plain".toList := by
  refine ⟨?_, rfl, ?_⟩
  · exact (claim_C8_deep_inject env_example).2.2.2.2.2.2.1 "TOKEN".toList
  · exact (claim_C8_deep_inject env_example).2.2.2.2.2.2.2.1
      "plain".toList rfl

-- -------------------------------------------------------------------
-- Auth-header fail-fast validation (main.py lines 159-218)
-- -------------------------------------------------------------------

/-- auth_token_key is the header slot name "auth_token". -/
def auth_token_key : PyStr := "auth_token".toList

/-- cookie_key is the header slot name "cookie". -/
def cookie_key : PyStr := "cookie".toList

/-- env_falsy models `not os.getenv(env_key)`: true when the variable is
unset or set to the empty string. -/
def env_falsy (env : Env) (k : PyStr) : Bool :=
  match env k with
  | some v => decide (v = [])
  | none => true

/-- missing_env_vars models main.py lines 159-166: collect, in header
order, the (header key, env var name) pairs whose string value is a
whole-string placeholder naming a falsy environment variable. -/
def missing_env_vars (env : Env) :
    List (PyStr × PyVal) → List (PyStr × PyStr)
  | [] => []
  | kv :: rest =>
    match kv.2 with
    | .str v =>
      if is_env_placeholder v && env_falsy env (placeholder_key v) then
        (kv.1, placeholder_key v) :: missing_env_vars env rest
      else missing_env_vars env rest
    | _ => missing_env_vars env rest

/-- assoc_mem models `key in dict`. -/
def assoc_mem {β : Type} (l : List (PyStr × β)) (k : PyStr) : Bool :=
  l.any (fun kv => decide (kv.1 = k))

/-- assoc_get models `dict.get(key)` / `dict[key]` on an item list. -/
def assoc_get {β : Type} (l : List (PyStr × β)) (k : PyStr) : Option β :=
  (l.find? (fun kv => decide (kv.1 = k))).map (fun kv => kv.2)

/-- str_lt is lexicographic comparison of strings by code point, Python's
`sorted` order. -/
def str_lt : PyStr → PyStr → Bool
  | [], [] => false
  | [], _ :: _ => true
  | _ :: _, [] => false
  | x :: xs, y :: ys => if x = y then str_lt xs ys else decide (x < y)

/-- insert_sorted inserts into a sorted list. -/
def insert_sorted (x : PyStr) : List PyStr → List PyStr
  | [] => [x]
  | y :: ys => if str_lt x y then x :: y :: ys else y :: insert_sorted x ys

/-- sort_strs models Python's `sorted` on strings (insertion sort). -/
def sort_strs : List PyStr → List PyStr
  | [] => []
  | x :: xs => insert_sorted x (sort_strs xs)

/-- validate_auth_headers models `_validate_auth_headers` (main.py lines
169-181): of the slots `auth_token` / `cookie` present in the header set,
if there is at least one and every one of them resolves to a falsy
placeholder, raise a `RuntimeError` carrying the sorted deduplicated
missing env-var names; otherwise return normally. -/
def validate_auth_headers (env : Env) (headers : List (PyStr × PyVal)) :
    Except (List PyStr) Unit :=
  let auth_keys := [auth_token_key, cookie_key].filter (assoc_mem headers)
  if auth_keys = [] then .ok ()
  else
    let missing_envs := missing_env_vars env headers
    let empty_auth := auth_keys.filter
      (fun k => (assoc_get missing_envs k).isSome)
    if empty_auth ≠ [] ∧ empty_auth.length = auth_keys.length then
      .error (sort_strs (drop_duplicates (fun s => s)
        (empty_auth.filterMap (assoc_get missing_envs))))
    else .ok ()

/-- main_auth_gate models the order of operations in `main()` (main.py
lines 217-218 before lines 228 and 264): both header sets are validated
before the fetch/download stage runs; a validation error propagates and
the stage — hence any network request — is never invoked. -/
def main_auth_gate {A : Type} (env : Env)
    (list_headers export_headers : List (PyStr × PyVal))
    (run : Unit → A) : Except (List PyStr) A :=
  match validate_auth_headers env list_headers with
  | .error e => .error e
  | .ok _ =>
    match validate_auth_headers env export_headers with
    | .error e => .error e
    | .ok _ => .ok (run ())

/-- mem_insert_sorted: insertion preserves membership. -/
theorem mem_insert_sorted (x a : PyStr) (l : List PyStr) :
    a ∈ insert_sorted x l ↔ a = x ∨ a ∈ l := by
  induction l with
  | nil => simp [insert_sorted]
  | cons y ys ih =>
    by_cases h : str_lt x y = true
    · simp [insert_sorted, h]
    · simp only [insert_sorted, if_neg h, List.mem_cons, ih]
      tauto

/-- mem_sort_strs: sorting preserves membership. -/
theorem mem_sort_strs (a : PyStr) (l : List PyStr) :
    a ∈ sort_strs l ↔ a ∈ l := by
  induction l with
  | nil => simp [sort_strs]
  | cons x xs ih => simp [sort_strs, mem_insert_sorted, ih]

/-- mem_dedup_id: identity-keyed deduplication preserves membership. -/
theorem mem_dedup_id {α : Type} [DecidableEq α] (l : List α) (a : α) :
    ∀ seen : List α,
    (a ∈ drop_duplicates.go (fun c => c) seen l ↔ (a ∈ l ∧ a ∉ seen)) := by
  induction l with
  | nil => intro seen; simp [drop_duplicates.go]
  | cons y ys ih =>
    intro seen
    by_cases h : y ∈ seen
    · simp only [drop_duplicates.go, h, if_true, ih, List.mem_cons]
      constructor
      · tauto
      · rintro ⟨hy | hy, hs⟩
        · exact absurd (hy.symm ▸ h) hs
        · exact ⟨hy, hs⟩
    · simp only [drop_duplicates.go, h, if_false, List.mem_cons, ih]
      constructor
      · rintro (hy | ⟨hmem, hns⟩)
        · exact ⟨Or.inl hy, fun hs => h (hy ▸ hs)⟩
        · exact ⟨Or.inr hmem, fun hs => hns (Or.inr hs)⟩
      · rintro ⟨hy | hmem, hs⟩
        · exact Or.inl hy
        · by_cases hay : a = y
          · exact Or.inl hay
          · exact Or.inr ⟨hmem, fun hc => hc.elim hay hs⟩

/-- assoc_get_cons: one lookup step. -/
theorem assoc_get_cons {β : Type} (p : PyStr × β) (l : List (PyStr × β))
    (k : PyStr) :
    assoc_get (p :: l) k =
      if p.1 = k then some p.2 else assoc_get l k := by
  by_cases h : p.1 = k
  · rw [if_pos h]
    simp [assoc_get, List.find?_cons_of_pos, h]
  · rw [if_neg h]
    simp [assoc_get, List.find?_cons_of_neg, h]

/-- find_missing_env: if the first header entry for slot `k` is a
placeholder for falsy env var `name`, the missing map's entry for `k` is
`name`. -/
theorem find_missing_env (env : Env) (headers : List (PyStr × PyVal))
    (k name : PyStr)
    (hfalsy : env_falsy env name = true) :
    headers.find? (fun kv => decide (kv.1 = k)) =
      some (k, PyVal.str (mk_placeholder name)) →
    assoc_get (missing_env_vars env headers) k = some name := by
  induction headers with
  | nil => intro hfind; simp at hfind
  | cons kv rest ih =>
    intro hfind
    obtain ⟨k1, v1⟩ := kv
    by_cases hk : k1 = k
    · rw [List.find?_cons_of_pos _ (by simp [hk])] at hfind
      have hv : v1 = PyVal.str (mk_placeholder name) :=
        congrArg Prod.snd (Option.some.inj hfind)
      subst hv
      have hmp := mk_placeholder_is_placeholder name
      simp only [missing_env_vars, hmp.1, hmp.2, hfalsy,
        Bool.and_self, if_true]
      rw [assoc_get_cons, if_pos hk]
    · rw [List.find?_cons_of_neg _ (by simp [hk])] at hfind
      have hrest := ih hfind
      cases v1 with
      | str v =>
        simp only [missing_env_vars]
        by_cases hcond :
            (is_env_placeholder v && env_falsy env (placeholder_key v))
              = true
        · rw [if_pos hcond, assoc_get_cons, if_neg hk]
          exact hrest
        · rw [if_neg hcond]
          exact hrest
      | intv n => exact hrest
      | boolv b => exact hrest
      | nonev => exact hrest
      | list xs => exact hrest
      | tuple xs => exact hrest
      | dict xs => exact hrest

/-- C7: when the `auth_token` and `cookie` slots of the listing request
configuration are both placeholders naming unset environment variables,
the pipeline raises the configuration error before the fetch/download
stage runs, and the error names exactly the missing environment
variables. -/
theorem claim_C7_auth_fail_fast {A : Type} (env : Env)
    (list_headers export_headers : List (PyStr × PyVal)) (run : Unit → A)
    (tokVar cookVar : PyStr)
    (hA : list_headers.find? (fun kv => decide (kv.1 = auth_token_key)) =
      some (auth_token_key, PyVal.str (mk_placeholder tokVar)))
    (hC : list_headers.find? (fun kv => decide (kv.1 = cookie_key)) =
      some (cookie_key, PyVal.str (mk_placeholder cookVar)))
    (henvA : env tokVar = none) (henvC : env cookVar = none) :
    ∃ vars,
      main_auth_gate env list_headers export_headers run =
        Except.error vars ∧
      tokVar ∈ vars ∧ cookVar ∈ vars ∧
      ∀ v ∈ vars, v = tokVar ∨ v = cookVar := by
  have hmemA : assoc_mem list_headers auth_token_key = true := by
    simp only [assoc_mem, List.any_eq_true]
    exact ⟨_, List.mem_of_find?_eq_some hA, by simp⟩
  have hmemC : assoc_mem list_headers cookie_key = true := by
    simp only [assoc_mem, List.any_eq_true]
    exact ⟨_, List.mem_of_find?_eq_some hC, by simp⟩
  have hgetA : assoc_get (missing_env_vars env list_headers)
      auth_token_key = some tokVar :=
    find_missing_env env list_headers _ _ (by simp [env_falsy, henvA]) hA
  have hgetC : assoc_get (missing_env_vars env list_headers)
      cookie_key = some cookVar :=
    find_missing_env env list_headers _ _ (by simp [env_falsy, henvC]) hC
  have hval : validate_auth_headers env list_headers =
      Except.error (sort_strs (drop_duplicates (fun s => s)
        ([auth_token_key, cookie_key].filterMap
          (assoc_get (missing_env_vars env list_headers))))) := by
    unfold validate_auth_headers
    simp only [List.filter_cons, List.filter_nil, hmemA, hmemC, if_pos,
      hgetA, hgetC, Option.isSome_some]
    rw [if_neg (by simp), if_pos (by simp)]
  refine ⟨sort_strs (drop_duplicates (fun s => s)
      ([auth_token_key, cookie_key].filterMap
        (assoc_get (missing_env_vars env list_headers)))), ?_, ?_, ?_, ?_⟩
  · unfold main_auth_gate
    rw [hval]
  · rw [mem_sort_strs]
    rw [show drop_duplicates (fun s => s)
        ([auth_token_key, cookie_key].filterMap
          (assoc_get (missing_env_vars env list_headers))) =
      drop_duplicates (fun s => s) [tokVar, cookVar] by
        simp [hgetA, hgetC]]
    exact ((mem_dedup_id [tokVar, cookVar] tokVar []).2 (by simp))
  · rw [mem_sort_strs]
    rw [show drop_duplicates (fun s => s)
        ([auth_token_key, cookie_key].filterMap
          (assoc_get (missing_env_vars env list_headers))) =
      drop_duplicates (fun s => s) [tokVar, cookVar] by
        simp [hgetA, hgetC]]
    exact ((mem_dedup_id [tokVar, cookVar] cookVar []).2 (by simp))
  · intro v hv
    rw [mem_sort_strs] at hv
    rw [show drop_duplicates (fun s => s)
        ([auth_token_key, cookie_key].filterMap
          (assoc_get (missing_env_vars env list_headers))) =
      drop_duplicates (fun s => s) [tokVar, cookVar] by
        simp [hgetA, hgetC]] at hv
    have := ((mem_dedup_id [tokVar, cookVar] v []).1 hv).1
    simpa using this

/-- env_unset is an environment with no variable set. -/
def env_unset : Env := fun _ => none

/-- C7 witness: the fail-fast theorem applied to the concrete config-shaped
header set with both placeholders and an empty environment. -/
theorem claim_C7_auth_fail_fast_witness :
    ∃ vars,
      main_auth_gate env_unset
        [(auth_token_key, PyVal.str (mk_placeholder "AUTH_TOKEN".toList)),
         (cookie_key, PyVal.str (mk_placeholder "COOKIE".toList))]
        [] (fun _ => (0 : Nat)) = Except.error vars ∧
      "AUTH_TOKEN".toList ∈ vars ∧ "COOKIE".toList ∈ vars ∧
      ∀ v ∈ vars, v = "AUTH_TOKEN".toList ∨ v = "COOKIE".toList := by
  exact claim_C7_auth_fail_fast env_unset _ [] _ _ _
    (by rfl) (by rfl) rfl rfl

-- -------------------------------------------------------------------
-- Export/merge by direction (exporter.py lines 21-38)
-- -------------------------------------------------------------------

/-- seen_after is the seen-key set after the dedup worker processes a
list. -/
def drop_duplicates.seen_after {α κ : Type} [DecidableEq κ] (key : α → κ) :
    List κ → List α → List κ
  | seen, [] => seen
  | seen, x :: xs =>
    if key x ∈ seen then drop_duplicates.seen_after key seen xs
    else drop_duplicates.seen_after key (key x :: seen) xs

/-- go_append splits the dedup worker over a concatenation. -/
theorem go_append {α κ : Type} [DecidableEq κ] (key : α → κ)
    (l m : List α) : ∀ seen : List κ,
    drop_duplicates.go key seen (l ++ m) =
      drop_duplicates.go key seen l ++
        drop_duplicates.go key (drop_duplicates.seen_after key seen l) m := by
  induction l with
  | nil => intro seen; rfl
  | cons x xs ih =>
    intro seen
    by_cases h : key x ∈ seen <;>
      simp [drop_duplicates.go, drop_duplicates.seen_after, h, ih]

/-- mem_seen_after characterises the accumulated seen keys. -/
theorem mem_seen_after {α κ : Type} [DecidableEq κ] (key : α → κ)
    (l : List α) (k : κ) : ∀ seen : List κ,
    (k ∈ drop_duplicates.seen_after key seen l ↔
      k ∈ seen ∨ k ∈ l.map key) := by
  induction l with
  | nil => intro seen; simp [drop_duplicates.seen_after]
  | cons x xs ih =>
    intro seen
    by_cases h : key x ∈ seen
    · simp only [drop_duplicates.seen_after, h, if_true, ih, List.map_cons,
        List.mem_cons]
      constructor
      · tauto
      · rintro (hs | hk | hk)
        · exact Or.inl hs
        · exact Or.inl (hk ▸ h)
        · exact Or.inr hk
    · simp only [drop_duplicates.seen_after, h, if_false, ih, List.map_cons,
        List.mem_cons]
      tauto

/-- go_subset: the dedup worker only keeps elements of its input. -/
theorem go_subset {α κ : Type} [DecidableEq κ] (key : α → κ) (l : List α)
    (x : α) : ∀ seen : List κ,
    x ∈ drop_duplicates.go key seen l → x ∈ l := by
  induction l with
  | nil => intro seen h; simp [drop_duplicates.go] at h
  | cons y ys ih =>
    intro seen h
    by_cases hy : key y ∈ seen
    · simp only [drop_duplicates.go, hy, if_true] at h
      exact List.mem_cons_of_mem _ (ih _ h)
    · simp only [drop_duplicates.go, hy, if_false, List.mem_cons] at h
      rcases h with h | h
      · exact h ▸ List.mem_cons_self _ _
      · exact List.mem_cons_of_mem _ (ih _ h)

/-- go_key_not_seen: nothing kept has a key that was already seen. -/
theorem go_key_not_seen {α κ : Type} [DecidableEq κ] (key : α → κ)
    (l : List α) (x : α) : ∀ seen : List κ,
    x ∈ drop_duplicates.go key seen l → key x ∉ seen := by
  induction l with
  | nil => intro seen h; simp [drop_duplicates.go] at h
  | cons y ys ih =>
    intro seen h
    by_cases hy : key y ∈ seen
    · simp only [drop_duplicates.go, hy, if_true] at h
      exact ih _ h
    · simp only [drop_duplicates.go, hy, if_false, List.mem_cons] at h
      rcases h with h | h
      · exact h ▸ hy
      · intro hs
        exact ih _ h (List.mem_cons_of_mem _ hs)

/-- go_nil_of_seen: with every key already seen nothing is kept. -/
theorem go_nil_of_seen {α κ : Type} [DecidableEq κ] (key : α → κ)
    (m : List α) : ∀ seen : List κ, (∀ x ∈ m, key x ∈ seen) →
    drop_duplicates.go key seen m = [] := by
  induction m with
  | nil => intro seen _; rfl
  | cons y ys ih =>
    intro seen hall
    have hy : key y ∈ seen := hall y (List.mem_cons_self _ _)
    simp only [drop_duplicates.go, hy, if_true]
    exact ih _ (fun x hx => hall x (List.mem_cons_of_mem _ hx))

/-- exists_mem_go_of_key: every unseen input key survives deduplication. -/
theorem exists_mem_go_of_key {α κ : Type} [DecidableEq κ] (key : α → κ)
    (l : List α) (k : κ) : ∀ seen : List κ,
    k ∈ l.map key → k ∉ seen →
    ∃ x, x ∈ drop_duplicates.go key seen l ∧ key x = k := by
  induction l with
  | nil => intro seen h _; simp at h
  | cons y ys ih =>
    intro seen hk hns
    rw [List.map_cons] at hk
    by_cases hy : key y ∈ seen
    · simp only [drop_duplicates.go, hy, if_true]
      rcases List.mem_cons.1 hk with h | h
      · exact absurd (by rw [h]; exact hy) hns
      · exact ih _ h hns
    · simp only [drop_duplicates.go, hy, if_false]
      by_cases hik : key y = k
      · exact ⟨y, List.mem_cons_self _ _, hik⟩
      · rcases List.mem_cons.1 hk with h | h
        · exact absurd h.symm hik
        · obtain ⟨x, hx, hxk⟩ := ih (key y :: seen) h
            (fun hc => (List.mem_cons.1 hc).elim
              (fun he => hik he.symm) hns)
          exact ⟨x, List.mem_cons_of_mem _ hx, hxk⟩

/-- go_idem: deduplication is idempotent. -/
theorem go_idem {α κ : Type} [DecidableEq κ] (key : α → κ) (l : List α) :
    ∀ seen : List κ,
    drop_duplicates.go key seen (drop_duplicates.go key seen l) =
      drop_duplicates.go key seen l := by
  induction l with
  | nil => intro seen; rfl
  | cons y ys ih =>
    intro seen
    by_cases hy : key y ∈ seen
    · simp only [drop_duplicates.go, hy, if_true, ih]
    · simp only [drop_duplicates.go, hy, if_false, ih]

/-- dedup_append_absorb: appending rows whose keys are all already present
does not change the deduplicated result. -/
theorem dedup_append_absorb {α κ : Type} [DecidableEq κ] (key : α → κ)
    (l m : List α) (h : ∀ x ∈ m, key x ∈ l.map key) :
    drop_duplicates key (drop_duplicates key l ++ m) =
      drop_duplicates key l := by
  unfold drop_duplicates
  rw [go_append, go_idem]
  have hnil : drop_duplicates.go key
      (drop_duplicates.seen_after key [] (drop_duplicates.go key [] l))
      m = [] := by
    apply go_nil_of_seen
    intro x hx
    rw [mem_seen_after]
    right
    obtain ⟨y, hy, hyk⟩ :=
      exists_mem_go_of_key key l (key x) [] (h x hx) (by simp)
    exact List.mem_map.2 ⟨y, hy, hyk⟩
  rw [hnil, List.append_nil]

/-- export_direction_file models the per-direction body of
`export_by_direction` (exporter.py lines 24-34): the new frame is built
from the fetched records; when the target file exists its rows are
concatenated in front of the new rows; duplicates on the configured dedup
key set are dropped keeping the first occurrence; the result is what is
rewritten to the file. -/
def export_direction_file {α κ : Type} [DecidableEq κ] (key : α → κ)
    (existing : Option (List α)) (records : List α) : List α :=
  let new_df := records
  let combined :=
    match existing with
    | some existing_df => existing_df ++ new_df
    | none => new_df
  drop_duplicates key combined

/-- C10: when the target file exists, the rewritten rows are the existing
rows followed by the new rows with key-duplicates dropped keeping first
occurrence; hence on every key collision between an existing and a new row
some existing row with that key is kept while the colliding new row is
discarded (unless it already was an existing row), and a rerun of the same
records over the freshly written file leaves the rows unchanged. -/
theorem claim_C10_merge_dedup {α κ : Type} [DecidableEq κ] (key : α → κ)
    (existing_rows records : List α) :
    export_direction_file key (some existing_rows) records =
      drop_duplicates key (existing_rows ++ records) ∧
    (∀ n ∈ records, key n ∈ existing_rows.map key →
      (∃ e, e ∈ existing_rows ∧ key e = key n ∧
        e ∈ export_direction_file key (some existing_rows) records) ∧
      (n ∉ existing_rows →
        n ∉ export_direction_file key (some existing_rows) records)) ∧
    export_direction_file key
      (some (export_direction_file key (some existing_rows) records))
      records =
      export_direction_file key (some existing_rows) records := by
  refine ⟨rfl, ?_, ?_⟩
  · intro n _ hkey
    constructor
    · obtain ⟨e, he, hek⟩ :=
        exists_mem_go_of_key key existing_rows (key n) [] hkey (by simp)
      refine ⟨e, go_subset key existing_rows e [] he, hek, ?_⟩
      show e ∈ drop_duplicates key (existing_rows ++ records)
      unfold drop_duplicates
      rw [go_append]
      exact List.mem_append_left _ he
    · intro hne hmem
      have hmem' : n ∈ drop_duplicates.go key [] existing_rows ++
          drop_duplicates.go key
            (drop_duplicates.seen_after key [] existing_rows) records := by
        have : export_direction_file key (some existing_rows) records =
            drop_duplicates.go key [] (existing_rows ++ records) := rfl
        rw [this, go_append] at hmem
        exact hmem
      rcases List.mem_append.1 hmem' with h | h
      · exact hne (go_subset key existing_rows n [] h)
      · have hnot := go_key_not_seen key records n _ h
        apply hnot
        rw [mem_seen_after]
        exact Or.inr hkey
  · show drop_duplicates key (drop_duplicates key
        (existing_rows ++ records) ++ records) =
      drop_duplicates key (existing_rows ++ records)
    exact dedup_append_absorb key (existing_rows ++ records) records
      (fun x hx => by
        rw [List.map_append]
        exact List.mem_append_right _ (List.mem_map_of_mem key hx))

/-- C10 witness: existing row (1, 10) collides on key 1 with new row
(1, 99); the rewritten file keeps the existing row and discards the new
one, and a rerun changes nothing. -/
theorem claim_C10_merge_dedup_witness :
    export_direction_file Prod.fst (some [((1 : Nat), (10 : Nat))])
      [(1, 99), (2, 20)] = [(1, 10), (2, 20)] ∧
    ((1, 99) : Nat × Nat) ∉
      export_direction_file Prod.fst (some [(1, 10)]) [(1, 99), (2, 20)] ∧
    export_direction_file Prod.fst
      (some (export_direction_file Prod.fst (some [(1, 10)])
        [(1, 99), (2, 20)])) [(1, 99), (2, 20)] =
      export_direction_file Prod.fst (some [(1, 10)]) [(1, 99), (2, 20)] := by
  refine ⟨rfl, ?_, ?_⟩
  · exact ((claim_C10_merge_dedup Prod.fst [(1, 10)]
      [(1, 99), (2, 20)]).2.1 (1, 99) (by simp) (by simp)).2 (by simp)
  · exact (claim_C10_merge_dedup Prod.fst [(1, 10)]
      [(1, 99), (2, 20)]).2.2

-- -------------------------------------------------------------------
-- Splitter (processor.py lines 33-101)
-- -------------------------------------------------------------------

/-- XRow models one spreadsheet row as the splitter reads it: the
consigner column, the actual-booker partition column (`none` models a
missing/NaN cell), and an opaque payload for the remaining columns. -/
structure XRow where
  consigner : Option PyStr
  actual_booker : Option PyStr
  payload : Nat

/-- bad_filename_chars are the characters `_sanitize_filename` replaces
(processor.py lines 16-30); 34 is the double-quote code point. -/
def bad_filename_chars : List Char :=
  ['/', '\\', ':', '*', '?', Char.ofNat 34, '<', '>', '|']

/-- sanitize_filename models `_sanitize_filename`: replace each unsafe
character with an underscore, then strip surrounding whitespace. -/
def sanitize_filename (name : PyStr) : PyStr :=
  py_strip (name.map (fun c => if c ∈ bad_filename_chars then '_' else c))

/-- split_excel_by_booker.step is one iteration of the group loop
(processor.py lines 86-99): stringify the group key (NaN becomes the
empty name), skip the group when the name strips to empty, otherwise emit
the (name, templated sanitized filename) pair. -/
def split_excel_by_booker.step (output_template : PyStr → PyStr)
    (acc : List (PyStr × PyStr)) (k : Option PyStr) :
    List (PyStr × PyStr) :=
  let actual_booker_name :=
    match k with
    | none => ([] : PyStr)
    | some s => s
  if py_strip actual_booker_name = [] then acc
  else acc ++ [(actual_booker_name,
    output_template (sanitize_filename actual_booker_name))]

/-- split_excel_by_booker models processor.py lines 33-101: optionally
filter by the consigner value (a falsy value disables the filter),
optionally drop the excluded booker (NaN cells survive the pandas `!=`
comparison), group the remaining rows by the booker column
(`dropna=False`, so the NaN group exists), and run the group loop — each
emitted pair is one written file. -/
def split_excel_by_booker (rows : List XRow)
    (consigner_value : Option PyStr)
    (actual_booker_exclude : Option PyStr)
    (output_template : PyStr → PyStr) : List (PyStr × PyStr) :=
  let df1 :=
    match consigner_value with
    | some v =>
      if v = [] then rows
      else rows.filter (fun r => decide (r.consigner = some v))
    | none => rows
  let df2 :=
    match actual_booker_exclude with
    | some ex =>
      if ex = [] then df1
      else df1.filter (fun r => decide (¬ r.actual_booker = some ex))
    | none => df1
  let group_keys := drop_duplicates (fun k => k)
    (df2.map (fun r => r.actual_booker))
  group_keys.foldl (split_excel_by_booker.step output_template) []

/-- split_fold_spec: every pair the group loop emits beyond its
accumulator has a name that does not strip to empty and carries the
templated sanitized filename. -/
theorem split_fold_spec (output_template : PyStr → PyStr)
    (keys : List (Option PyStr)) :
    ∀ acc : List (PyStr × PyStr),
    ∀ entry ∈ keys.foldl (split_excel_by_booker.step output_template) acc,
    entry ∈ acc ∨ (py_strip entry.1 ≠ [] ∧
      entry.2 = output_template (sanitize_filename entry.1)) := by
  induction keys with
  | nil => intro acc entry h; exact Or.inl h
  | cons k rest ih =>
    intro acc entry h
    simp only [List.foldl_cons] at h
    rcases ih _ entry h with hacc | hgood
    · cases k with
      | none => exact Or.inl hacc
      | some s =>
        have hacc' : entry ∈
            (if py_strip s = [] then acc
             else acc ++ [(s, output_template (sanitize_filename s))]) :=
          hacc
        by_cases hk : py_strip s = []
        · rw [if_pos hk] at hacc'
          exact Or.inl hacc'
        · rw [if_neg hk] at hacc'
          rcases List.mem_append.1 hacc' with h1 | h1
          · exact Or.inl h1
          · have h2 := List.mem_singleton.1 h1
            right
            rw [h2]
            exact ⟨hk, rfl⟩
    · exact Or.inr hgood

/-- C9: `split_excel_by_booker` never emits — and hence never writes a
file for — the empty partition group: every returned (name, filename)
pair has a name that is non-empty after stripping whitespace (so the
missing/NaN group, stringified to the empty name, and whitespace-only
names are all skipped), and its filename is the template applied to the
sanitized name. -/
theorem claim_C9_no_empty_group (rows : List XRow)
    (consigner_value actual_booker_exclude : Option PyStr)
    (output_template : PyStr → PyStr) :
    ∀ entry ∈ split_excel_by_booker rows consigner_value
      actual_booker_exclude output_template,
    py_strip entry.1 ≠ [] ∧
      entry.2 = output_template (sanitize_filename entry.1) := by
  intro entry h
  have := split_fold_spec output_template _ [] entry h
  rcases this with habs | hgood
  · simp at habs
  · exact hgood

/-- example_rows_C9 contains a NaN booker, a whitespace-only booker and a
real booker "A". -/
def example_rows_C9 : List XRow :=
  [⟨some "X".toList, none, 1⟩,
   ⟨some "X".toList, some "  ".toList, 2⟩,
   ⟨some "X".toList, some "A".toList, 3⟩]

/-- C9 witness: on the example rows only the "A" group is emitted, and
the theorem applied to that entry confirms its name is non-empty after
stripping. -/
theorem claim_C9_no_empty_group_witness :
    split_excel_by_booker example_rows_C9 none none (fun s => s) =
      [("A".toList, "A".toList)] ∧
    py_strip "A".toList ≠ [] := by
  constructor
  · rfl
  · exact (claim_C9_no_empty_group example_rows_C9 none none (fun s => s)
      ("A".toList, "A".toList) (by decide)).1

end FileProc
